import Mathlib

/-!
Shallow embedding of the period-tracking program (src/main.cpp).

Dates. The program stores dates as strings in the form YYYY-MM-DD, converts
them with mktime to a time point at day granularity, and does all arithmetic
in whole days (hours divided by 24, truncating). At day granularity this is
exactly arithmetic on Gregorian day numbers, so a date is modelled as its
day number (an integer); mkDate converts a calendar triple to that number.
For well-formed zero-padded date strings, lexicographic string comparison
(used by the program to find the latest start) coincides with the order on
day numbers, so comparisons are modelled on day numbers directly.
Parsing is modelled away: every date handled below is already parsed, which
matches every claim considered here (all speak of parseable dates).
-/

/-- Day-number representation of a calendar date. -/
abbrev Date := Int

def isLeapYear (y : Nat) : Bool :=
  (y % 4 == 0 && y % 100 != 0) || (y % 400 == 0)

/-- Days in the months strictly before month m (1-12) of a year. -/
def monthOffset (leap : Bool) (m : Nat) : Nat :=
  let base :=
    match m with
    | 1 => 0
    | 2 => 31
    | 3 => 59
    | 4 => 90
    | 5 => 120
    | 6 => 151
    | 7 => 181
    | 8 => 212
    | 9 => 243
    | 10 => 273
    | 11 => 304
    | _ => 334
  base + (if leap && m > 2 then 1 else 0)

/-- Day number of the proleptic Gregorian date y-m-d (day 0 is 0001-01-01). -/
def mkDate (y m d : Nat) : Date :=
  ((365 * (y - 1) + (y - 1) / 4 - (y - 1) / 100 + (y - 1) / 400
    + monthOffset (isLeapYear y) m + (d - 1) : Nat) : Int)

/-- daysBetween from the source: signed whole-day difference d2 - d1. -/
def daysBetween (d1 d2 : Date) : Int := d2 - d1

/-- addDays from the source: shift a date by a signed number of days. -/
def addDays (d : Date) (n : Int) : Date := d + n

/-- CycleEntry from the source: a cycle record.  startDate and endDate are
day numbers; cycleLength is the spacing field (days between starts). -/
structure CycleEntry where
  startDate : Date
  endDate : Date
  durationDays : Int
  cycleLength : Int
deriving DecidableEq, Repr

/-- Reminder from the source: an instant (day number) and a message. -/
structure Reminder where
  whenAt : Date
  message : String
deriving DecidableEq, Repr

/-- The action tag stored on the undo and redo stacks; the source uses the
strings "add" and "del". -/
inductive HAction where
  | add
  | del
deriving DecidableEq, Repr

/-- Result-value errors of the ledger operations. -/
inductive LedgerError where
  | invalidRange
  | notFound
deriving DecidableEq, Repr

/-- Outcome of undo and redo: performed, empty history, or stale state
(the source prints a message and proceeds in each case). -/
inductive OpResult where
  | ok
  | emptyHistory
  | stale
deriving DecidableEq, Repr

/-- State of the PeriodTracker class: the cycles vector, the two history
stacks (head of the list is the top of the stack), and the reminder
priority queue, modelled as a list kept sorted ascending by instant
(repeatedly popping a binary min-heap yields exactly this sequence).
The daily-log map and CSV persistence are outside every claim considered
here and are omitted. -/
structure Tracker where
  cycles : List CycleEntry
  undoStack : List (HAction × CycleEntry)
  redoStack : List (HAction × CycleEntry)
  reminders : List Reminder
deriving DecidableEq, Repr

def emptyTracker : Tracker := ⟨[], [], [], []⟩

/-- The identity test used by undo and redo in the source:
equality of startDate and endDate. -/
def pairMatch (e c : CycleEntry) : Bool :=
  c.startDate == e.startDate && c.endDate == e.endDate

/-- averageCycleLength from the source: accumulate the sum and count of the
strictly positive cycleLength values in one pass, then integer-divide
(C++ int division truncates toward zero, hence Int.tdiv), defaulting
to 28 when the count is zero. -/
def averageCycleLength (cycles : List CycleEntry) : Int :=
  let p := cycles.foldl
    (fun acc c => if 0 < c.cycleLength then (acc.1 + c.cycleLength, acc.2 + 1) else acc)
    ((0 : Int), (0 : Int))
  if 0 < p.2 then Int.tdiv p.1 p.2 else 28

/-- The latest-start scan used by prediction and the reminder rebuild in the
source: start from the front entry and replace whenever a later entry has a
strictly greater startDate. -/
def codeLatestStart : List CycleEntry → Option Date
  | [] => none
  | c :: rest =>
    some ((c :: rest).foldl (fun acc x => if acc < x.startDate then x.startDate else acc)
      c.startDate)

/-- Push into the reminder min-heap, modelled as insertion into the sorted
list at the position the instant orders it. -/
def insertReminder (r : Reminder) : List Reminder → List Reminder
  | [] => [r]
  | x :: xs => if r.whenAt < x.whenAt then r :: x :: xs else x :: insertReminder r xs

/-- The reminder list the rebuild produces from a cycles list: empty for an
empty ledger, otherwise the single predicted-next-period reminder. -/
def derivedReminders (cycles : List CycleEntry) : List Reminder :=
  match codeLatestStart cycles with
  | none => []
  | some last =>
    let predicted := addDays last (averageCycleLength cycles)
    [⟨predicted, "Predicted next period: " ++ toString predicted⟩]

/-- rebuildRemindersFromCycles from the source: pop every reminder off the
queue, then, if the ledger is non-empty, push one reminder at the predicted
next date.  (The string-to-time conversion guard in the source always
succeeds here because the predicted date is produced by the formatter.) -/
def rebuildRemindersFromCycles (t : Tracker) : Tracker :=
  match codeLatestStart t.cycles with
  | none => { t with reminders := [] }
  | some last =>
    let predicted := addDays last (averageCycleLength t.cycles)
    { t with reminders :=
        insertReminder ⟨predicted, "Predicted next period: " ++ toString predicted⟩ [] }

/-- The record an add builds: duration is the day count start to end, and
the spacing field is the day count from the startDate of the last element
of the cycles vector (the most recently stored record), or 0 when the
vector is empty. -/
def newEntry (cycles : List CycleEntry) (s e : Date) : CycleEntry :=
  ⟨s, e, daysBetween s e,
    match cycles.getLast? with
    | none => 0
    | some prev => daysBetween prev.startDate s⟩

/-- addCycleFromUser from the source, with the console I/O stripped: reject
when the day count from start to end is negative; otherwise append the new
record, push the add action, clear the redo stack, and rebuild the derived
reminder. -/
def addCycleFromUser (t : Tracker) (s e : Date) : Except LedgerError Tracker :=
  if daysBetween s e < 0 then
    .error .invalidRange
  else
    .ok (rebuildRemindersFromCycles
      { t with
        cycles := t.cycles ++ [newEntry t.cycles s e]
        undoStack := (HAction.add, newEntry t.cycles s e) :: t.undoStack
        redoStack := [] })

/-- One session step for an add request: on an error the source prints a
message and leaves the tracker untouched. -/
def runAdd (t : Tracker) (s e : Date) : Tracker :=
  match addCycleFromUser t s e with
  | .ok t2 => t2
  | .error _ => t

/-- deleteCycleByStart from the source: find the first entry whose startDate
equals the target; if none (or the ledger is empty) report not found,
otherwise erase it, push the delete action, clear the redo stack, and
rebuild the derived reminder. -/
def deleteCycleByStart (t : Tracker) (target : Date) : Except LedgerError Tracker :=
  match t.cycles.find? (fun c => c.startDate == target) with
  | none => .error .notFound
  | some removed =>
    .ok (rebuildRemindersFromCycles
      { t with
        cycles := t.cycles.eraseP (fun c => c.startDate == target)
        undoStack := (HAction.del, removed) :: t.undoStack
        redoStack := [] })

/-- Insertion step of the sort the source applies after restoring an entry
(std sort ascending by startDate). -/
def insertByStart (x : CycleEntry) : List CycleEntry → List CycleEntry
  | [] => [x]
  | y :: ys => if x.startDate < y.startDate then x :: y :: ys else y :: insertByStart x ys

/-- The sort ascending by startDate used after undo and redo restores.
The std sort of the source is unstable and its order among equal keys is
unspecified; this insertion sort produces one of the permitted orders, and
every claim below compares ledgers up to permutation or through
order-insensitive folds. -/
def sortByStart : List CycleEntry → List CycleEntry
  | [] => []
  | x :: xs => insertByStart x (sortByStart xs)

/-- undo from the source.  An empty stack returns at once (no rebuild).
Undoing an add erases the first entry with matching start and end dates if
present, pushing the add onto the redo stack; if absent the action is
dropped.  Undoing a delete re-inserts the stored entry and re-sorts if no
matching entry is present, pushing the delete onto the redo stack; if one
is present the action is dropped.  Every non-empty branch ends with the
reminder rebuild. -/
def undo (t : Tracker) : Tracker × OpResult :=
  match t.undoStack with
  | [] => (t, .emptyHistory)
  | (a, entry) :: rest =>
    match a with
    | .add =>
      if t.cycles.any (pairMatch entry) then
        (rebuildRemindersFromCycles
          { t with
            cycles := t.cycles.eraseP (pairMatch entry)
            undoStack := rest
            redoStack := (HAction.add, entry) :: t.redoStack }, .ok)
      else
        (rebuildRemindersFromCycles { t with undoStack := rest }, .stale)
    | .del =>
      if t.cycles.any (pairMatch entry) then
        (rebuildRemindersFromCycles { t with undoStack := rest }, .stale)
      else
        (rebuildRemindersFromCycles
          { t with
            cycles := sortByStart (t.cycles ++ [entry])
            undoStack := rest
            redoStack := (HAction.del, entry) :: t.redoStack }, .ok)

/-- redo from the source, symmetric to undo: re-apply the popped action when
the identity guard allows it, pushing it back onto the undo stack. -/
def redo (t : Tracker) : Tracker × OpResult :=
  match t.redoStack with
  | [] => (t, .emptyHistory)
  | (a, entry) :: rest =>
    match a with
    | .add =>
      if t.cycles.any (pairMatch entry) then
        (rebuildRemindersFromCycles { t with redoStack := rest }, .stale)
      else
        (rebuildRemindersFromCycles
          { t with
            cycles := sortByStart (t.cycles ++ [entry])
            redoStack := rest
            undoStack := (HAction.add, entry) :: t.undoStack }, .ok)
    | .del =>
      if t.cycles.any (pairMatch entry) then
        (rebuildRemindersFromCycles
          { t with
            cycles := t.cycles.eraseP (pairMatch entry)
            redoStack := rest
            undoStack := (HAction.del, entry) :: t.undoStack }, .ok)
      else
        (rebuildRemindersFromCycles { t with redoStack := rest }, .stale)

/-- predictNextPeriod from the source: none for an empty ledger, otherwise
the latest startDate plus the average cycle length.  The member function is
const; here its value is returned and the state is untouched. -/
def predictNextPeriod (t : Tracker) : Option Date :=
  match codeLatestStart t.cycles with
  | none => none
  | some last => some (addDays last (averageCycleLength t.cycles))

/-- cleanupPastReminders from the source: pop the top of the min-heap while
its instant is strictly before now, stop at the first that is not.  The
current instant is an input of the model. -/
def cleanupPastReminders (now : Date) : List Reminder → List Reminder
  | [] => []
  | r :: rest =>
    if r.whenAt < now then cleanupPastReminders now rest else r :: rest

/-- addManualReminder from the source, console I/O stripped: push a reminder
unconditionally (the date is already parsed in the model). -/
def addManualReminder (t : Tracker) (whenAt : Date) (msg : String) : Tracker :=
  { t with reminders := insertReminder ⟨whenAt, msg⟩ t.reminders }

/-! Concrete session states used by examples, witnesses and refutations.
Each is reached from the empty tracker through the operations above. -/

/-- Ledger after inserting the record 2024-03-01 to 2024-03-02. -/
def trackMar : Tracker := runAdd emptyTracker (mkDate 2024 3 1) (mkDate 2024 3 2)

/-- trackMar after inserting the record 2024-01-01 to 2024-01-02, whose
startDate precedes every stored startDate. -/
def trackMarJan : Tracker := runAdd trackMar (mkDate 2024 1 1) (mkDate 2024 1 2)

/-- Ledger after inserting the record 2024-01-01 to 2024-01-02. -/
def trackX1 : Tracker := runAdd emptyTracker (mkDate 2024 1 1) (mkDate 2024 1 2)

/-- trackX1 after inserting 2024-01-29 to 2024-01-30 (spacing 28). -/
def trackX2 : Tracker := runAdd trackX1 (mkDate 2024 1 29) (mkDate 2024 1 30)

/-- trackX2 after inserting a second record with the same date pair
2024-01-29 to 2024-01-30 (its spacing is 0). -/
def trackX3 : Tracker := runAdd trackX2 (mkDate 2024 1 29) (mkDate 2024 1 30)

/-- Empty ledger holding one manually added reminder. -/
def trackManual : Tracker := addManualReminder emptyTracker (mkDate 2099 1 1) "see doctor"

/-- trackManual after inserting the record 2024-01-01 to 2024-01-05. -/
def trackManualIns : Tracker := runAdd trackManual (mkDate 2024 1 1) (mkDate 2024 1 5)

/-- Ledger with three records whose spacing values are 0, 28 and 30. -/
def trackE1 : Tracker :=
  runAdd (runAdd (runAdd emptyTracker (mkDate 2024 1 1) (mkDate 2024 1 5))
      (mkDate 2024 1 29) (mkDate 2024 2 2))
    (mkDate 2024 2 28) (mkDate 2024 3 3)

/-- Ledger with a single record (no spacing data). -/
def trackE2 : Tracker := runAdd emptyTracker (mkDate 2024 1 1) (mkDate 2024 1 5)

/-- trackE2 after undoing the insert. -/
def trackW2 : Tracker := (undo trackE2).1

/-- trackW2 after inserting a different record 2024-02-01 to 2024-02-05. -/
def trackW3 : Tracker := runAdd trackW2 (mkDate 2024 2 1) (mkDate 2024 2 5)

/-- A past reminder (2020-01-01) used to exercise the expiry cleanup. -/
def remPast : Reminder := ⟨mkDate 2020 1 1, "old checkup"⟩

/-- A future reminder (2099-01-01) used to exercise the expiry cleanup. -/
def remFuture : Reminder := ⟨mkDate 2099 1 1, "future checkup"⟩

/-- Consistency of the action on top of the undo stack with the current
ledger: an add action requires the stored record itself to be the single
record carrying its startDate and endDate pair, and a delete action
requires no record with that pair to be present.  Operation sequences that
never insert a duplicate date pair keep the history in this state. -/
abbrev consistentTop : HAction → CycleEntry → List CycleEntry → Prop
  | .add, entry, cycles => cycles.filter (pairMatch entry) = [entry]
  | .del, entry, cycles => cycles.any (pairMatch entry) = false

/-! Helper lemmas about the embedded operations. -/

theorem rebuild_cycles (t : Tracker) :
    (rebuildRemindersFromCycles t).cycles = t.cycles := by
  unfold rebuildRemindersFromCycles
  cases codeLatestStart t.cycles <;> rfl

theorem rebuild_undoStack (t : Tracker) :
    (rebuildRemindersFromCycles t).undoStack = t.undoStack := by
  unfold rebuildRemindersFromCycles
  cases codeLatestStart t.cycles <;> rfl

theorem rebuild_redoStack (t : Tracker) :
    (rebuildRemindersFromCycles t).redoStack = t.redoStack := by
  unfold rebuildRemindersFromCycles
  cases codeLatestStart t.cycles <;> rfl

theorem rebuild_reminders (t : Tracker) :
    (rebuildRemindersFromCycles t).reminders = derivedReminders t.cycles := by
  unfold rebuildRemindersFromCycles derivedReminders
  cases codeLatestStart t.cycles <;> rfl

theorem addCycle_ok_shape {t t' : Tracker} {s e : Date}
    (h : addCycleFromUser t s e = .ok t') :
    0 ≤ daysBetween s e ∧
    t' = rebuildRemindersFromCycles
      { t with
        cycles := t.cycles ++ [newEntry t.cycles s e]
        undoStack := (HAction.add, newEntry t.cycles s e) :: t.undoStack
        redoStack := [] } := by
  unfold addCycleFromUser at h
  split at h
  · exact absurd h (by simp)
  · next hge =>
    refine ⟨by omega, ?_⟩
    exact (Except.ok.injEq _ _ ▸ h).symm

theorem delete_ok_shape {t t' : Tracker} {d : Date}
    (h : deleteCycleByStart t d = .ok t') :
    ∃ removed,
      t.cycles.find? (fun c => c.startDate == d) = some removed ∧
      t' = rebuildRemindersFromCycles
        { t with
          cycles := t.cycles.eraseP (fun c => c.startDate == d)
          undoStack := (HAction.del, removed) :: t.undoStack
          redoStack := [] } := by
  unfold deleteCycleByStart at h
  split at h
  · exact absurd h (by simp)
  · next removed hfind =>
    exact ⟨removed, hfind, (Except.ok.injEq _ _ ▸ h).symm⟩

theorem undo_empty {t : Tracker} (h : t.undoStack = []) :
    undo t = (t, OpResult.emptyHistory) := by
  unfold undo
  rw [h]

theorem undo_add_found {t : Tracker} {entry : CycleEntry} {rest : List (HAction × CycleEntry)}
    (htop : t.undoStack = (HAction.add, entry) :: rest)
    (hany : t.cycles.any (pairMatch entry) = true) :
    undo t = (rebuildRemindersFromCycles
      { t with
        cycles := t.cycles.eraseP (pairMatch entry)
        undoStack := rest
        redoStack := (HAction.add, entry) :: t.redoStack }, .ok) := by
  unfold undo
  rw [htop]
  simp [hany]

theorem undo_add_missing {t : Tracker} {entry : CycleEntry} {rest : List (HAction × CycleEntry)}
    (htop : t.undoStack = (HAction.add, entry) :: rest)
    (hany : t.cycles.any (pairMatch entry) = false) :
    undo t = (rebuildRemindersFromCycles { t with undoStack := rest }, .stale) := by
  unfold undo
  rw [htop]
  simp [hany]

theorem undo_del_found {t : Tracker} {entry : CycleEntry} {rest : List (HAction × CycleEntry)}
    (htop : t.undoStack = (HAction.del, entry) :: rest)
    (hany : t.cycles.any (pairMatch entry) = true) :
    undo t = (rebuildRemindersFromCycles { t with undoStack := rest }, .stale) := by
  unfold undo
  rw [htop]
  simp [hany]

theorem undo_del_missing {t : Tracker} {entry : CycleEntry} {rest : List (HAction × CycleEntry)}
    (htop : t.undoStack = (HAction.del, entry) :: rest)
    (hany : t.cycles.any (pairMatch entry) = false) :
    undo t = (rebuildRemindersFromCycles
      { t with
        cycles := sortByStart (t.cycles ++ [entry])
        undoStack := rest
        redoStack := (HAction.del, entry) :: t.redoStack }, .ok) := by
  unfold undo
  rw [htop]
  simp [hany]

theorem redo_empty {t : Tracker} (h : t.redoStack = []) :
    redo t = (t, OpResult.emptyHistory) := by
  unfold redo
  rw [h]

theorem redo_add_missing {t : Tracker} {entry : CycleEntry} {rest : List (HAction × CycleEntry)}
    (htop : t.redoStack = (HAction.add, entry) :: rest)
    (hany : t.cycles.any (pairMatch entry) = false) :
    redo t = (rebuildRemindersFromCycles
      { t with
        cycles := sortByStart (t.cycles ++ [entry])
        redoStack := rest
        undoStack := (HAction.add, entry) :: t.undoStack }, .ok) := by
  unfold redo
  rw [htop]
  simp [hany]

theorem redo_add_found {t : Tracker} {entry : CycleEntry} {rest : List (HAction × CycleEntry)}
    (htop : t.redoStack = (HAction.add, entry) :: rest)
    (hany : t.cycles.any (pairMatch entry) = true) :
    redo t = (rebuildRemindersFromCycles { t with redoStack := rest }, .stale) := by
  unfold redo
  rw [htop]
  simp [hany]

theorem redo_del_found {t : Tracker} {entry : CycleEntry} {rest : List (HAction × CycleEntry)}
    (htop : t.redoStack = (HAction.del, entry) :: rest)
    (hany : t.cycles.any (pairMatch entry) = true) :
    redo t = (rebuildRemindersFromCycles
      { t with
        cycles := t.cycles.eraseP (pairMatch entry)
        redoStack := rest
        undoStack := (HAction.del, entry) :: t.undoStack }, .ok) := by
  unfold redo
  rw [htop]
  simp [hany]

theorem redo_del_missing {t : Tracker} {entry : CycleEntry} {rest : List (HAction × CycleEntry)}
    (htop : t.redoStack = (HAction.del, entry) :: rest)
    (hany : t.cycles.any (pairMatch entry) = false) :
    redo t = (rebuildRemindersFromCycles { t with redoStack := rest }, .stale) := by
  unfold redo
  rw [htop]
  simp [hany]

theorem pairMatch_self (e : CycleEntry) : pairMatch e e = true := by
  simp [pairMatch]

theorem insertByStart_perm (x : CycleEntry) (l : List CycleEntry) :
    (insertByStart x l).Perm (x :: l) := by
  induction l with
  | nil => exact List.Perm.refl _
  | cons y ys ih =>
    unfold insertByStart
    split
    · exact List.Perm.refl _
    · exact (List.Perm.cons y ih).trans (List.Perm.swap x y ys)

theorem sortByStart_perm (l : List CycleEntry) : (sortByStart l).Perm l := by
  induction l with
  | nil => exact List.Perm.refl _
  | cons x xs ih =>
    exact (insertByStart_perm x (sortByStart xs)).trans (List.Perm.cons x ih)

theorem eraseP_append_of_clean {p : CycleEntry → Bool} {l : List CycleEntry} {a : CycleEntry}
    (hclean : ∀ c ∈ l, p c = false) (ha : p a = true) :
    (l ++ [a]).eraseP p = l := by
  induction l with
  | nil => simp [List.eraseP_cons, ha]
  | cons x xs ih =>
    have hx : p x = false := hclean x (List.mem_cons_self x xs)
    have hxs : ∀ c ∈ xs, p c = false := fun c hc => hclean c (List.mem_cons_of_mem x hc)
    simp [List.eraseP_cons, hx, ih hxs]

theorem avg_foldl (l : List CycleEntry) (s c : Int) :
    l.foldl
      (fun acc x => if 0 < x.cycleLength then (acc.1 + x.cycleLength, acc.2 + 1) else acc)
      (s, c) =
    (s + ((l.filter fun x => 0 < x.cycleLength).map (·.cycleLength)).sum,
     c + ((l.filter fun x => 0 < x.cycleLength).length : Int)) := by
  induction l generalizing s c with
  | nil => simp
  | cons x xs ih =>
    rw [List.foldl_cons]
    by_cases hx : 0 < x.cycleLength
    · rw [if_pos hx, ih, List.filter_cons_of_pos (by simpa using hx)]
      simp only [List.map_cons, List.sum_cons, List.length_cons, Prod.mk.injEq]
      constructor <;> push_cast <;> ring
    · rw [if_neg hx, ih, List.filter_cons_of_neg (by simpa using hx)]

theorem if_lt_eq_max (a b : Int) : (if a < b then b else a) = max a b := by
  rw [max_def]
  split <;> split <;> omega

theorem fold_max_start (l : List CycleEntry) (a : Date) :
    l.foldl (fun acc x => if acc < x.startDate then x.startDate else acc) a =
    (l.map (·.startDate)).foldl max a := by
  induction l generalizing a with
  | nil => rfl
  | cons x xs ih =>
    simp only [List.foldl_cons, List.map_cons]
    rw [if_lt_eq_max, ih]

/-! Claim theorems. -/

/-- C9: for every tracker state and every pair of dates with the end date
strictly before the start date, the insert fails with the InvalidRange
error, and the session step for that request leaves the whole tracker
state (ledger, undo stack, redo stack, reminders) unchanged. -/
theorem c9_invalid_range_rejected (t : Tracker) (s e : Date) (h : e < s) :
    addCycleFromUser t s e = Except.error LedgerError.invalidRange ∧
    runAdd t s e = t := by
  have hd : daysBetween s e < 0 := sub_neg.mpr h
  refine ⟨?_, ?_⟩
  · unfold addCycleFromUser
    rw [if_pos hd]
  · unfold runAdd addCycleFromUser
    rw [if_pos hd]

/-- C9 witness: the theorem applied to a concrete reversed date pair. -/
theorem c9_witness :
    (mkDate 2024 1 1 : Date) < mkDate 2024 2 1 ∧
    (addCycleFromUser trackE2 (mkDate 2024 2 1) (mkDate 2024 1 1) =
        Except.error LedgerError.invalidRange ∧
      runAdd trackE2 (mkDate 2024 2 1) (mkDate 2024 1 1) = trackE2) :=
  ⟨by decide, c9_invalid_range_rejected trackE2 (mkDate 2024 2 1) (mkDate 2024 1 1) (by decide)⟩

/-- C10: the insert performs no uniqueness check: inserting a record whose
startDate and endDate pair is already present (with valid ordering of the
dates) succeeds and appends a second record with that pair. -/
theorem c10_duplicate_insert_appends (t : Tracker) (s e : Date)
    (hdup : 1 ≤ t.cycles.countP (fun c => c.startDate == s && c.endDate == e))
    (hrange : s ≤ e) :
    ∃ t', addCycleFromUser t s e = Except.ok t' ∧
      t'.cycles.length = t.cycles.length + 1 ∧
      2 ≤ t'.cycles.countP (fun c => c.startDate == s && c.endDate == e) := by
  have hd : ¬daysBetween s e < 0 := not_lt.mpr (sub_nonneg.mpr hrange)
  refine ⟨_, by unfold addCycleFromUser; rw [if_neg hd], ?_, ?_⟩
  · rw [rebuild_cycles]
    simp
  · rw [rebuild_cycles, List.countP_append]
    have h1 : List.countP (fun c => c.startDate == s && c.endDate == e)
        [newEntry t.cycles s e] = 1 := by
      simp [List.countP_cons, newEntry]
    omega

/-- C10 witness: inserting the date pair already held by the one record of
trackE2 succeeds and yields two records with that pair. -/
theorem c10_witness :
    1 ≤ trackE2.cycles.countP
        (fun c => c.startDate == mkDate 2024 1 1 && c.endDate == mkDate 2024 1 5) ∧
    (mkDate 2024 1 1 : Date) ≤ mkDate 2024 1 5 ∧
    ∃ t', addCycleFromUser trackE2 (mkDate 2024 1 1) (mkDate 2024 1 5) = Except.ok t' ∧
      t'.cycles.length = trackE2.cycles.length + 1 ∧
      2 ≤ t'.cycles.countP
          (fun c => c.startDate == mkDate 2024 1 1 && c.endDate == mkDate 2024 1 5) :=
  ⟨by decide, by decide,
    c10_duplicate_insert_appends trackE2 (mkDate 2024 1 1) (mkDate 2024 1 5)
      (by decide) (by decide)⟩

/-- C4: every successful insert and every successful delete clears the redo
stack, and in particular after the sequence insert, undo, insert of another
record, a redo finds an empty history and returns the tracker unchanged. -/
theorem c4_new_action_clears_redo :
    (∀ (t t' : Tracker) (s e : Date),
      addCycleFromUser t s e = Except.ok t' → t'.redoStack = []) ∧
    (∀ (t t' : Tracker) (d : Date),
      deleteCycleByStart t d = Except.ok t' → t'.redoStack = []) ∧
    (∀ (t t1 t3 : Tracker) (s1 e1 s2 e2 : Date),
      addCycleFromUser t s1 e1 = Except.ok t1 →
      addCycleFromUser (undo t1).1 s2 e2 = Except.ok t3 →
      redo t3 = (t3, OpResult.emptyHistory)) := by
  have hadd : ∀ (t t' : Tracker) (s e : Date),
      addCycleFromUser t s e = Except.ok t' → t'.redoStack = [] := by
    intro t t' s e h
    obtain ⟨-, rfl⟩ := addCycle_ok_shape h
    rw [rebuild_redoStack]
  refine ⟨hadd, ?_, ?_⟩
  · intro t t' d h
    obtain ⟨removed, -, rfl⟩ := delete_ok_shape h
    rw [rebuild_redoStack]
  · intro t t1 t3 s1 e1 s2 e2 h1 h3
    exact redo_empty (hadd _ _ _ _ h3)

/-- C4 witness: the concrete sequence insert, undo, insert other, redo. -/
theorem c4_witness :
    addCycleFromUser emptyTracker (mkDate 2024 1 1) (mkDate 2024 1 5) = Except.ok trackE2 ∧
    addCycleFromUser (undo trackE2).1 (mkDate 2024 2 1) (mkDate 2024 2 5) = Except.ok trackW3 ∧
    redo trackW3 = (trackW3, OpResult.emptyHistory) :=
  ⟨rfl, rfl,
    c4_new_action_clears_redo.2.2 emptyTracker trackE2 trackW3
      (mkDate 2024 1 1) (mkDate 2024 1 5) (mkDate 2024 2 1) (mkDate 2024 2 5) rfl rfl⟩

/-- C8: on a reminder queue (a list sorted ascending by instant, the order a
min-heap pops in), the expiry cleanup removes exactly the reminders whose
instant is strictly before now and retains all others. -/
theorem c8_prune_expired (now : Date) (l : List Reminder)
    (hs : List.Pairwise (fun a b => a.whenAt ≤ b.whenAt) l) :
    cleanupPastReminders now l = l.filter (fun r => !(r.whenAt < now)) := by
  induction l with
  | nil => rfl
  | cons r rest ih =>
    rw [List.pairwise_cons] at hs
    unfold cleanupPastReminders
    by_cases hr : r.whenAt < now
    · rw [if_pos hr, ih hs.2, List.filter_cons_of_neg (by simp [hr])]
    · rw [if_neg hr, List.filter_cons_of_pos (by simp [hr])]
      have hrest : rest.filter (fun r => !(r.whenAt < now)) = rest :=
        List.filter_eq_self.mpr (fun a ha => by
          have h1 := hs.1 a ha
          simp only [Bool.not_eq_true', decide_eq_false_iff_not]
          exact fun hlt => hr (lt_of_le_of_lt h1 hlt))
      rw [hrest]

/-- C8 witness: with now 2024-01-01 the cleanup removes a 2020-01-01
reminder and retains a 2099-01-01 reminder. -/
theorem c8_witness :
    List.Pairwise (fun a b => a.whenAt ≤ b.whenAt) [remPast, remFuture] ∧
    cleanupPastReminders (mkDate 2024 1 1) [remPast, remFuture] =
      [remPast, remFuture].filter (fun r => !(r.whenAt < mkDate 2024 1 1)) ∧
    [remPast, remFuture].filter (fun r => !(r.whenAt < mkDate 2024 1 1)) = [remFuture] :=
  ⟨by decide, c8_prune_expired (mkDate 2024 1 1) [remPast, remFuture] (by decide), by decide⟩

/-- C5: averageCycleLength is the mean of the strictly positive spacing
values, with integer division truncating toward zero, and is the default 28
when no strictly positive spacing exists; spacings 28 and 30 give 29, and a
single record with no spacing data gives 28. -/
theorem c5_average_spacing :
    (∀ l : List CycleEntry,
      averageCycleLength l =
        if (l.filter fun c => 0 < c.cycleLength) = [] then 28
        else Int.tdiv ((l.filter fun c => 0 < c.cycleLength).map (·.cycleLength)).sum
          ((l.filter fun c => 0 < c.cycleLength).length : Int)) ∧
    averageCycleLength trackE1.cycles = 29 ∧
    averageCycleLength trackE2.cycles = 28 := by
  refine ⟨?_, by decide, by decide⟩
  intro l
  unfold averageCycleLength
  rw [avg_foldl]
  simp only [zero_add]
  by_cases h : (l.filter fun c => 0 < c.cycleLength) = []
  · rw [if_pos h, h]
    simp
  · rw [if_neg h]
    have hlen : 0 < (l.filter fun c => 0 < c.cycleLength).length := List.length_pos.mpr h
    rw [if_pos (by exact_mod_cast hlen)]

/-- C6: the prediction is none on an empty ledger and otherwise the maximum
startDate across all records plus the average spacing in days; it reads the
tracker and stores nothing.  The latest start 2024-01-01 with average
spacing 28 predicts 2024-01-29. -/
theorem c6_predict_next :
    (∀ t : Tracker,
      predictNextPeriod t =
        ((t.cycles.map (·.startDate)).max?).map
          (fun m => addDays m (averageCycleLength t.cycles))) ∧
    predictNextPeriod trackE2 = some (mkDate 2024 1 29) := by
  refine ⟨?_, by decide⟩
  intro t
  unfold predictNextPeriod codeLatestStart
  cases hc : t.cycles with
  | nil => rfl
  | cons c rest =>
    show some (addDays ((c :: rest).foldl
        (fun acc x => if acc < x.startDate then x.startDate else acc) c.startDate)
        (averageCycleLength (c :: rest))) =
      (((c :: rest).map (·.startDate)).max?).map
        (fun m => addDays m (averageCycleLength (c :: rest)))
    have hmax : ((c :: rest).map (·.startDate)).max? =
        some ((rest.map (·.startDate)).foldl max c.startDate) := rfl
    rw [hmax]
    simp only [List.foldl_cons, Option.map_some']
    rw [if_neg (lt_irrefl _), fold_max_start]

/-- C1 counterexample: trackMar holds one record starting 2024-03-01, so no
stored record starts strictly before 2024-01-01; the claim then demands the
sentinel spacing 0 for a new record starting 2024-01-01, yet the insert
succeeds with spacing -60, the day count from the most recently inserted
record. -/
theorem c1_counterexample :
    addCycleFromUser trackMar (mkDate 2024 1 1) (mkDate 2024 1 2) = Except.ok trackMarJan ∧
    (trackMar.cycles.all fun c => !(c.startDate < mkDate 2024 1 1)) = true ∧
    trackMarJan.cycles.getLast?.map (·.cycleLength) = some (-60) :=
  ⟨rfl, by decide, by decide⟩

/-- C1 amended: the spacing of every successfully inserted record is the day
count from the startDate of the most recently stored record (the last
element of the cycles vector, regardless of chronology), and the sentinel 0
exactly when the ledger was empty. -/
theorem c1_spacing_from_last_inserted (t t' : Tracker) (s e : Date)
    (h : addCycleFromUser t s e = Except.ok t') :
    t'.cycles.getLast?.map (·.cycleLength) =
      some (match t.cycles.getLast? with
            | none => 0
            | some prev => daysBetween prev.startDate s) := by
  obtain ⟨-, rfl⟩ := addCycle_ok_shape h
  rw [rebuild_cycles]
  show ((t.cycles ++ [newEntry t.cycles s e]).getLast?).map (·.cycleLength) = _
  rw [List.getLast?_concat]
  rfl

/-- C1 amended witness: the theorem applied to the trackMar state. -/
theorem c1_amended_witness :
    trackMarJan.cycles.getLast?.map (·.cycleLength) =
      some (match trackMar.cycles.getLast? with
            | none => 0
            | some prev => daysBetween prev.startDate (mkDate 2024 1 1)) :=
  c1_spacing_from_last_inserted trackMar trackMarJan (mkDate 2024 1 1) (mkDate 2024 1 2) rfl

/-- C2 counterexample: a manually added reminder is present before an insert
and absent afterwards, because the rebuild pops the whole queue. -/
theorem c2_counterexample :
    (⟨mkDate 2099 1 1, "see doctor"⟩ : Reminder) ∈ trackManual.reminders ∧
    addCycleFromUser trackManual (mkDate 2024 1 1) (mkDate 2024 1 5) =
      Except.ok trackManualIns ∧
    (⟨mkDate 2099 1 1, "see doctor"⟩ : Reminder) ∉ trackManualIns.reminders :=
  ⟨by decide, rfl, by decide⟩

/-- C2 amended: every successful ledger mutation (insert, delete, and every
undo or redo that finds history to act on) rebuilds the reminder queue to
exactly the ledger-derived content: one predicted reminder, or none when
the ledger is empty.  Manually added reminders do not survive any ledger
mutation. -/
theorem c2_rebuild_replaces_entire_queue (t t' : Tracker) (s e d : Date) :
    (addCycleFromUser t s e = Except.ok t' → t'.reminders = derivedReminders t'.cycles) ∧
    (deleteCycleByStart t d = Except.ok t' → t'.reminders = derivedReminders t'.cycles) ∧
    ((undo t).2 ≠ OpResult.emptyHistory →
      (undo t).1.reminders = derivedReminders (undo t).1.cycles) ∧
    ((redo t).2 ≠ OpResult.emptyHistory →
      (redo t).1.reminders = derivedReminders (redo t).1.cycles) := by
  refine ⟨?_, ?_, ?_, ?_⟩
  · intro h
    obtain ⟨-, rfl⟩ := addCycle_ok_shape h
    rw [rebuild_reminders, rebuild_cycles]
  · intro h
    obtain ⟨removed, -, rfl⟩ := delete_ok_shape h
    rw [rebuild_reminders, rebuild_cycles]
  · intro h
    rcases htop : t.undoStack with _ | ⟨⟨a, entry⟩, rest⟩
    · exact absurd (by rw [undo_empty htop]) h
    · cases a
      · by_cases hany : t.cycles.any (pairMatch entry)
        · rw [undo_add_found htop hany]
          simp [rebuild_reminders, rebuild_cycles]
        · rw [Bool.not_eq_true] at hany
          rw [undo_add_missing htop hany]
          simp [rebuild_reminders, rebuild_cycles]
      · by_cases hany : t.cycles.any (pairMatch entry)
        · rw [undo_del_found htop hany]
          simp [rebuild_reminders, rebuild_cycles]
        · rw [Bool.not_eq_true] at hany
          rw [undo_del_missing htop hany]
          simp [rebuild_reminders, rebuild_cycles]
  · intro h
    rcases htop : t.redoStack with _ | ⟨⟨a, entry⟩, rest⟩
    · exact absurd (by rw [redo_empty htop]) h
    · cases a
      · by_cases hany : t.cycles.any (pairMatch entry)
        · rw [redo_add_found htop hany]
          simp [rebuild_reminders, rebuild_cycles]
        · rw [Bool.not_eq_true] at hany
          rw [redo_add_missing htop hany]
          simp [rebuild_reminders, rebuild_cycles]
      · by_cases hany : t.cycles.any (pairMatch entry)
        · rw [redo_del_found htop hany]
          simp [rebuild_reminders, rebuild_cycles]
        · rw [Bool.not_eq_true] at hany
          rw [redo_del_missing htop hany]
          simp [rebuild_reminders, rebuild_cycles]

/-- C2 amended witness: the insert clause applied to the state holding a
manual reminder. -/
theorem c2_amended_witness :
    addCycleFromUser trackManual (mkDate 2024 1 1) (mkDate 2024 1 5) =
      Except.ok trackManualIns ∧
    trackManualIns.reminders = derivedReminders trackManualIns.cycles :=
  ⟨rfl,
    (c2_rebuild_replaces_entire_queue trackManual trackManualIns
      (mkDate 2024 1 1) (mkDate 2024 1 5) (mkDate 2024 1 1)).1 rfl⟩

/-- C3 counterexample: trackX2 is unique by date pair, yet inserting a
record that duplicates the pair of an existing record and undoing at once
leaves a different multiset: the undo erases the first record with the
matching pair, which carries spacing 28, while the newly inserted duplicate
with spacing 0 stays. -/
theorem c3_counterexample :
    List.Pairwise (fun a b => ¬(a.startDate = b.startDate ∧ a.endDate = b.endDate))
      trackX2.cycles ∧
    addCycleFromUser trackX2 (mkDate 2024 1 29) (mkDate 2024 1 30) = Except.ok trackX3 ∧
    ¬ (undo trackX3).1.cycles.Perm trackX2.cycles :=
  ⟨by decide, rfl, by decide⟩

/-- C3 amended: when additionally the inserted date pair is fresh (no stored
record already carries the same startDate and endDate), a successful insert
followed immediately by undo restores the multiset of records. -/
theorem c3_insert_undo_restores (t t' : Tracker) (s e : Date)
    (huniq : List.Pairwise (fun a b => ¬(a.startDate = b.startDate ∧ a.endDate = b.endDate))
      t.cycles)
    (hfresh : ∀ c ∈ t.cycles, ¬(c.startDate = s ∧ c.endDate = e))
    (h : addCycleFromUser t s e = Except.ok t') :
    (undo t').1.cycles.Perm t.cycles := by
  obtain ⟨-, rfl⟩ := addCycle_ok_shape h
  have hany : (rebuildRemindersFromCycles
      { t with
        cycles := t.cycles ++ [newEntry t.cycles s e]
        undoStack := (HAction.add, newEntry t.cycles s e) :: t.undoStack
        redoStack := [] }).cycles.any (pairMatch (newEntry t.cycles s e)) = true := by
    rw [rebuild_cycles]
    exact List.any_eq_true.mpr ⟨_, by simp, pairMatch_self _⟩
  rw [undo_add_found (rebuild_undoStack _) hany]
  simp only [rebuild_cycles]
  have hclean : ∀ c ∈ t.cycles, pairMatch (newEntry t.cycles s e) c = false := by
    intro c hc
    by_contra hcon
    rw [Bool.not_eq_false] at hcon
    simp only [pairMatch, newEntry, Bool.and_eq_true, beq_iff_eq] at hcon
    exact hfresh c hc ⟨hcon.1, hcon.2⟩
  show ((t.cycles ++ [newEntry t.cycles s e]).eraseP
      (pairMatch (newEntry t.cycles s e))).Perm t.cycles
  rw [eraseP_append_of_clean hclean (pairMatch_self _)]

/-- C3 witness: inserting a fresh pair into the one-record ledger trackX1
and undoing restores its record multiset. -/
theorem c3_witness :
    List.Pairwise (fun a b => ¬(a.startDate = b.startDate ∧ a.endDate = b.endDate))
      trackX1.cycles ∧
    (∀ c ∈ trackX1.cycles,
      ¬(c.startDate = mkDate 2024 1 29 ∧ c.endDate = mkDate 2024 1 30)) ∧
    addCycleFromUser trackX1 (mkDate 2024 1 29) (mkDate 2024 1 30) = Except.ok trackX2 ∧
    (undo trackX2).1.cycles.Perm trackX1.cycles :=
  ⟨by decide, by decide, rfl,
    c3_insert_undo_restores trackX1 trackX2 (mkDate 2024 1 29) (mkDate 2024 1 30)
      (by decide) (by decide) rfl⟩

/-- C7 counterexample: trackX3 carries a prior add action in its history,
yet undo followed by redo shrinks the ledger from three records to two: the
undo erases the first record carrying the duplicated date pair and the redo
then refuses to re-add because a record with that pair is still present. -/
theorem c7_counterexample :
    trackX3.undoStack.head? =
      some (HAction.add, ⟨mkDate 2024 1 29, mkDate 2024 1 30, 1, 0⟩) ∧
    ¬ (redo (undo trackX3).1).1.cycles.Perm trackX3.cycles :=
  ⟨by decide, by decide⟩

/-- C7 amended: when the action on top of the undo stack is consistent with
the ledger (its record is the unique carrier of its date pair for an add,
and its pair is absent for a delete), undo followed by redo restores the
multiset of records. -/
theorem c7_undo_redo_roundtrip (t : Tracker) (a : HAction) (entry : CycleEntry)
    (rest : List (HAction × CycleEntry))
    (htop : t.undoStack = (a, entry) :: rest)
    (hcons : consistentTop a entry t.cycles) :
    (redo (undo t).1).1.cycles.Perm t.cycles := by
  cases a with
  | add =>
    have hconsf : t.cycles.filter (pairMatch entry) = [entry] := hcons
    have hmemf : entry ∈ t.cycles.filter (pairMatch entry) := by
      rw [hconsf]
      exact List.mem_singleton_self _
    have hmem : entry ∈ t.cycles := List.mem_of_mem_filter hmemf
    have hany : t.cycles.any (pairMatch entry) = true :=
      List.any_eq_true.mpr ⟨entry, hmem, pairMatch_self entry⟩
    obtain ⟨b, l₁, l₂, hnp, hpb, hl, herase⟩ :=
      List.exists_of_eraseP hmem (pairMatch_self entry)
    have hbe : b = entry := by
      have hbf : b ∈ t.cycles.filter (pairMatch entry) :=
        List.mem_filter.mpr ⟨by rw [hl]; exact List.mem_append_right _ (List.mem_cons_self _ _), hpb⟩
      rw [hconsf] at hbf
      exact List.mem_singleton.mp hbf
    rw [hbe] at hpb hl
    have hfl₂ : ∀ x ∈ l₂, ¬pairMatch entry x = true := by
      have h2 := hconsf
      rw [hl, List.filter_append, List.filter_eq_nil_iff.mpr hnp, List.nil_append,
        List.filter_cons_of_pos hpb] at h2
      simp only [List.cons.injEq, true_and] at h2
      exact List.filter_eq_nil_iff.mp h2
    rw [undo_add_found htop hany]
    have hany2 : (rebuildRemindersFromCycles
        { t with
          cycles := t.cycles.eraseP (pairMatch entry)
          undoStack := rest
          redoStack := (HAction.add, entry) :: t.redoStack }).cycles.any
        (pairMatch entry) = false := by
      rw [rebuild_cycles]
      show (t.cycles.eraseP (pairMatch entry)).any (pairMatch entry) = false
      rw [herase]
      exact List.any_eq_false.mpr (fun x hx =>
        (List.mem_append.mp hx).elim (fun h1 => hnp x h1) (fun h1 => hfl₂ x h1))
    rw [redo_add_missing (rebuild_redoStack _) hany2]
    simp only [rebuild_cycles]
    refine (sortByStart_perm _).trans ?_
    show ((t.cycles.eraseP (pairMatch entry)) ++ [entry]).Perm t.cycles
    rw [herase, hl]
    exact (List.perm_append_singleton _ _).trans List.perm_middle.symm
  | del =>
    have hconsa : t.cycles.any (pairMatch entry) = false := hcons
    rw [undo_del_missing htop hconsa]
    have hperm1 : (sortByStart (t.cycles ++ [entry])).Perm (entry :: t.cycles) :=
      (sortByStart_perm _).trans (List.perm_append_singleton _ _)
    have hmem1 : entry ∈ sortByStart (t.cycles ++ [entry]) :=
      hperm1.symm.subset (List.mem_cons_self _ _)
    obtain ⟨b, l₁, l₂, hnp, hpb, hl, herase⟩ :=
      List.exists_of_eraseP hmem1 (pairMatch_self entry)
    have hnon : ∀ x ∈ t.cycles, ¬pairMatch entry x = true := List.any_eq_false.mp hconsa
    have hbe : b = entry := by
      have hbm : b ∈ entry :: t.cycles :=
        hperm1.subset (by rw [hl]; exact List.mem_append_right _ (List.mem_cons_self _ _))
      rcases List.mem_cons.mp hbm with h1 | h1
      · exact h1
      · exact absurd hpb (hnon b h1)
    rw [hbe] at hpb hl
    have hany2 : (rebuildRemindersFromCycles
        { t with
          cycles := sortByStart (t.cycles ++ [entry])
          undoStack := rest
          redoStack := (HAction.del, entry) :: t.redoStack }).cycles.any
        (pairMatch entry) = true := by
      rw [rebuild_cycles]
      exact List.any_eq_true.mpr ⟨entry, hmem1, pairMatch_self entry⟩
    rw [redo_del_found (rebuild_redoStack _) hany2]
    simp only [rebuild_cycles]
    show ((sortByStart (t.cycles ++ [entry])).eraseP (pairMatch entry)).Perm t.cycles
    rw [herase]
    have hchain : (entry :: (l₁ ++ l₂)).Perm (entry :: t.cycles) := by
      refine List.Perm.trans List.perm_middle.symm ?_
      rw [← hl]
      exact hperm1
    exact hchain.cons_inv

/-- C7 witness: the roundtrip applied to the one-record ledger trackE2,
whose top undo action is the add of its sole record. -/
theorem c7_witness :
    trackE2.undoStack = [(HAction.add, ⟨mkDate 2024 1 1, mkDate 2024 1 5, 4, 0⟩)] ∧
    consistentTop HAction.add ⟨mkDate 2024 1 1, mkDate 2024 1 5, 4, 0⟩ trackE2.cycles ∧
    (redo (undo trackE2).1).1.cycles.Perm trackE2.cycles :=
  ⟨by decide, by decide,
    c7_undo_redo_roundtrip trackE2 HAction.add ⟨mkDate 2024 1 1, mkDate 2024 1 5, 4, 0⟩ []
      (by decide) (by decide)⟩
